import Mathlib

/-!
Verification of the swing-trading stock screener.

A shallow embedding of `main.py`: pandas float series are modelled as lists
over `PVal` (an exact rational extended with `nan`/`±inf`, mirroring the IEEE
behaviours the pipeline relies on), pure rational series as `List ℚ`.  The
indicator engine (`calculate_rsi`, `calculate_macd`), the screening rule set
(`screen_stock`) and the orchestrator (`run_screener`) are translated
definition by definition, and the specification's claims are settled as
theorems about these definitions.
-/

/-- A pandas/numpy float value: an exact rational, `nan`, or a signed
infinity.  Rounding is not modelled; definedness, saturation at infinities
and NaN propagation are. -/
inductive PVal where
  | nan : PVal
  | pinf : PVal
  | ninf : PVal
  | fin : ℚ → PVal
deriving DecidableEq, Repr

namespace PVal

/-- IEEE negation: `nan` propagates, infinities flip sign. -/
def neg : PVal → PVal
  | nan => nan
  | pinf => ninf
  | ninf => pinf
  | fin q => fin (-q)

/-- IEEE addition: `nan` propagates, `+inf + -inf = nan`. -/
def add : PVal → PVal → PVal
  | nan, _ => nan
  | _, nan => nan
  | pinf, ninf => nan
  | pinf, _ => pinf
  | ninf, pinf => nan
  | ninf, _ => ninf
  | fin _, pinf => pinf
  | fin _, ninf => ninf
  | fin x, fin y => fin (x + y)

/-- IEEE subtraction, as addition of the negation. -/
def sub (a b : PVal) : PVal := add a (neg b)

/-- numpy division: `x/0` is `±inf` for `x ≠ 0` and `nan` for `x = 0`
(pandas emits these values rather than raising); `x/±inf` is zero;
`inf/inf` is `nan`.  Signed zeros are not tracked. -/
def div : PVal → PVal → PVal
  | nan, _ => nan
  | _, nan => nan
  | pinf, pinf => nan
  | pinf, ninf => nan
  | ninf, pinf => nan
  | ninf, ninf => nan
  | pinf, fin y => if 0 ≤ y then pinf else ninf
  | ninf, fin y => if 0 ≤ y then ninf else pinf
  | fin _, pinf => fin 0
  | fin _, ninf => fin 0
  | fin x, fin y =>
    if y = 0 then (if 0 < x then pinf else if x < 0 then ninf else nan)
    else fin (x / y)

/-- IEEE strict comparison: any comparison against `nan` is false. -/
def blt : PVal → PVal → Bool
  | nan, _ => false
  | _, nan => false
  | ninf, ninf => false
  | ninf, _ => true
  | _, ninf => false
  | pinf, _ => false
  | fin _, pinf => true
  | fin x, fin y => decide (x < y)

end PVal

/-! ## Series statistics (pandas primitives used by `main.py`) -/

/-- The pandas `prices.diff()`: undefined (`NaN`) at index 0, else the difference with
the previous element.  Matches `pandas.Series.diff` on an all-finite series. -/
def diff (xs : List ℚ) : List PVal :=
  (List.range xs.length).map fun i =>
    if i = 0 then PVal.nan else PVal.fin (xs.getD i 0 - xs.getD (i - 1) 0)

/-- The pandas `delta.where(delta > 0, 0)`: keep a value only when it is strictly
positive, otherwise 0.  A `NaN` input fails the comparison and is replaced
by 0 — this is what pandas does at the first `diff` index. -/
def gainVal : PVal → ℚ
  | PVal.fin q => if 0 < q then q else 0
  | _ => 0

/-- The pandas `(-delta.where(delta < 0, 0))`: the magnitude of a strictly negative
value, otherwise 0, with `NaN` likewise replaced by 0. -/
def lossVal : PVal → ℚ
  | PVal.fin q => if q < 0 then -q else 0
  | _ => 0

/-- The pandas `xs.rolling(window=w).mean()`: the mean of the `w` values ending at each
index, `NaN` while fewer than `w` observations are available
(`min_periods` defaults to the window size). -/
def rolling_mean (xs : List ℚ) (window : ℕ) : List PVal :=
  (List.range xs.length).map fun i =>
    if window ≤ i + 1 then
      PVal.fin ((∑ j in Finset.range window, xs.getD (i + 1 - window + j) 0) / (window : ℚ))
    else PVal.nan

/-- Accumulator loop for `pandas.Series.ewm(span=s).mean()` with the default
`adjust=True`: the online form of the adjusted EMA, carrying the running
weight total `w = ∑ aᵏ` and the current weighted mean `y`, so each emitted
value is `(x + a·w·y) / (1 + a·w)`.  `a` is `1 - α = (span-1)/(span+1)`. -/
def ewmGo (a : ℚ) : ℚ → ℚ → List ℚ → List ℚ
  | _, _, [] => []
  | w, y, x :: xs =>
    ((x + a * w * y) / (1 + a * w)) :: ewmGo a (1 + a * w) ((x + a * w * y) / (1 + a * w)) xs

/-- The pandas `xs.ewm(span=span).mean()` with its defaults (`adjust=True`,
`min_periods=0`): defined at every index, seeded from the first value. -/
def ewm_mean (xs : List ℚ) (span : ℕ) : List ℚ :=
  ewmGo (((span : ℚ) - 1) / ((span : ℚ) + 1)) 0 0 xs

/-! ## Indicator engine -/

/-- The rolling mean of gains inside `calculate_rsi`. -/
def gainSeries (prices : List ℚ) (period : ℕ) : List PVal :=
  rolling_mean ((diff prices).map gainVal) period

/-- The rolling mean of losses inside `calculate_rsi`. -/
def lossSeries (prices : List ℚ) (period : ℕ) : List PVal :=
  rolling_mean ((diff prices).map lossVal) period

/-- The function `calculate_rsi`: `rs = gain / loss`, `rsi = 100 - 100/(1 + rs)`,
elementwise over the series. -/
def calculate_rsi (prices : List ℚ) (period : ℕ) : List PVal :=
  (List.zipWith PVal.div (gainSeries prices period) (lossSeries prices period)).map
    fun rs => PVal.sub (PVal.fin 100) (PVal.div (PVal.fin 100) (PVal.add (PVal.fin 1) rs))

/-- The three aligned output series of `calculate_macd`. -/
structure MacdData where
  macd : List ℚ
  signal : List ℚ
  histogram : List ℚ
deriving DecidableEq, Repr

/-- The function `calculate_macd`: MACD line = fast EMA − slow EMA, signal line = EMA of
the MACD line, histogram = MACD line − signal line. -/
def calculate_macd (prices : List ℚ) (fast slow signal : ℕ) : MacdData :=
  let ema_fast := ewm_mean prices fast
  let ema_slow := ewm_mean prices slow
  let macd_line := List.zipWith (fun x y => x - y) ema_fast ema_slow
  let signal_line := ewm_mean macd_line signal
  let histogram := List.zipWith (fun x y => x - y) macd_line signal_line
  { macd := macd_line, signal := signal_line, histogram := histogram }

/-! ## Screening rule set -/

/-- Configuration constants of `main.py`. -/
def RSI_PERIOD : ℕ := 14

/-- Fast EMA span for MACD. -/
def MACD_FAST : ℕ := 12

/-- Slow EMA span for MACD. -/
def MACD_SLOW : ℕ := 26

/-- Signal-line EMA span for MACD. -/
def MACD_SIGNAL : ℕ := 9

/-- One daily bar: close price and traded volume (the fields the core
reads). -/
structure Bar where
  close : ℚ
  volume : ℚ
deriving DecidableEq, Repr

/-- The reason strings appended by the five criteria, by identity. -/
inductive Reason where
  | rsi_neutral : Reason
  | rsi_trading : Reason
  | macd_histogram_positive : Reason
  | macd_above_signal : Reason
  | above_sma_20 : Reason
  | above_sma_50 : Reason
deriving DecidableEq, Repr

/-- The `signals` dictionary built by `screen_stock`. -/
structure ScreenResult where
  ticker : String
  price : ℚ
  rsi : PVal
  macd : ℚ
  signal_line : ℚ
  histogram : ℚ
  sma_20 : PVal
  sma_50 : PVal
  sma_200 : PVal
  volume : ℚ
  avg_volume : PVal
  score : ℕ
  reasons : List Reason
deriving DecidableEq, Repr

/-- The pandas `series.iloc[-1]`: the last element (with a default for the empty
series, which the callers rule out). -/
def lastD (l : List α) (d : α) : α := l.getD (l.length - 1) d

/-- The comparison `current_price > current_sma`: a float comparison where an undefined
(`NaN`) moving average makes the criterion fail. -/
def priceAbove (price : ℚ) (sma : PVal) : Bool := PVal.blt sma (PVal.fin price)

/-- The body of `screen_stock` after the length guard: indicators, latest
values, the five criteria, score and reasons. -/
def screenCompute (ticker : String) (data : List Bar) : ScreenResult :=
  let close_prices := data.map Bar.close
  let rsi := calculate_rsi close_prices RSI_PERIOD
  let macd_data := calculate_macd close_prices MACD_FAST MACD_SLOW MACD_SIGNAL
  let sma_20 := rolling_mean close_prices 20
  let sma_50 := rolling_mean close_prices 50
  let sma_200 := rolling_mean close_prices 200
  let current_price := lastD close_prices 0
  let current_rsi := lastD rsi PVal.nan
  let current_macd := lastD macd_data.macd 0
  let current_signal := lastD macd_data.signal 0
  let current_histogram := lastD macd_data.histogram 0
  let current_sma_20 := lastD sma_20 PVal.nan
  let current_sma_50 := lastD sma_50 PVal.nan
  let current_sma_200 := lastD sma_200 PVal.nan
  let volumes := data.map Bar.volume
  let avg_volume := lastD (rolling_mean volumes 20) PVal.nan
  let current_volume := lastD volumes 0
  let crit1 := PVal.blt (PVal.fin 30) current_rsi && PVal.blt current_rsi (PVal.fin 70)
  let crit1n := PVal.blt (PVal.fin 40) current_rsi && PVal.blt current_rsi (PVal.fin 60)
  let crit4 := priceAbove current_price current_sma_20
  let crit5 := priceAbove current_price current_sma_50
  let score := (if crit1 then (if crit1n then 2 else 1) else 0) +
    (if 0 < current_histogram then 1 else 0) +
    (if current_signal < current_macd then 1 else 0) +
    (if crit4 then 1 else 0) + (if crit5 then 1 else 0)
  let reasons :=
    (if crit1 then [if crit1n then Reason.rsi_neutral else Reason.rsi_trading] else []) ++
    (if 0 < current_histogram then [Reason.macd_histogram_positive] else []) ++
    (if current_signal < current_macd then [Reason.macd_above_signal] else []) ++
    (if crit4 then [Reason.above_sma_20] else []) ++
    (if crit5 then [Reason.above_sma_50] else [])
  { ticker := ticker, price := current_price, rsi := current_rsi,
    macd := current_macd, signal_line := current_signal,
    histogram := current_histogram, sma_20 := current_sma_20,
    sma_50 := current_sma_50, sma_200 := current_sma_200,
    volume := current_volume, avg_volume := avg_volume,
    score := score, reasons := reasons }

/-- The function `screen_stock`: refuses (returns `None`) when the series is shorter than
`RSI_PERIOD`, otherwise screens. -/
def screen_stock (ticker : String) (data : List Bar) : Option ScreenResult :=
  if data.length < RSI_PERIOD then none else some (screenCompute ticker data)

/-! ## Pipeline orchestrator -/

/-- The per-ticker loop of `run_screener`: a failed fetch or a declined
screen records the ticker as failed and moves on; a successful screen
appends the result in input order. -/
def gatherResults (fetch : String → Option (List Bar)) :
    List String → List ScreenResult × List String
  | [] => ([], [])
  | t :: ts =>
    let rest := gatherResults fetch ts
    match fetch t with
    | none => (rest.1, t :: rest.2)
    | some data =>
      match screen_stock t data with
      | none => (rest.1, t :: rest.2)
      | some r => (r :: rest.1, rest.2)

/-- Stable insertion for the descending sort: an element goes in front of
the first position whose score does not exceed its own, so earlier entries
stay ahead of equal-score later ones. -/
def insertDesc (x : ScreenResult) : List ScreenResult → List ScreenResult
  | [] => [x]
  | y :: ys => if y.score ≤ x.score then x :: y :: ys else y :: insertDesc x ys

/-- The call `results.sort(key=lambda x: x['score'], reverse=True)`: a stable sort by
score descending (Python's sort is stable; any stable descending sort
produces the same ordering). -/
def sortDesc : List ScreenResult → List ScreenResult
  | [] => []
  | x :: xs => insertDesc x (sortDesc xs)

/-- The function `run_screener` with the data collaborator abstracted: gather per-ticker
results and failures, then stably sort the results by score descending. -/
def run_screener (tickers : List String) (fetch : String → Option (List Bar)) :
    List ScreenResult × List String :=
  let gathered := gatherResults fetch tickers
  (sortDesc gathered.1, gathered.2)

/-! ## An executable fraction mirror for the EMA chains

Concrete MACD values are quotients with very large numerators; to evaluate
them inside Lean we mirror the EMA computation on unnormalised integer
fractions (no gcd, so the kernel can reduce them) and prove once that the
mirror computes exactly the rational series of `ewm_mean`. -/

/-- An unnormalised fraction of integers. -/
structure Frac where
  n : ℤ
  d : ℤ
deriving DecidableEq, Repr

/-- The rational value of a fraction (`n/0` collapses to `0`, as in `ℚ`). -/
def Frac.q (f : Frac) : ℚ := (f.n : ℚ) / (f.d : ℚ)

/-- Fraction addition without normalisation. -/
def Frac.add (x y : Frac) : Frac := ⟨x.n * y.d + y.n * x.d, x.d * y.d⟩

/-- Fraction multiplication without normalisation. -/
def Frac.mul (x y : Frac) : Frac := ⟨x.n * y.n, x.d * y.d⟩

/-- Fraction division without normalisation. -/
def Frac.div (x y : Frac) : Frac := ⟨x.n * y.d, x.d * y.n⟩

/-- Fraction subtraction without normalisation. -/
def Frac.sub (x y : Frac) : Frac := ⟨x.n * y.d - y.n * x.d, x.d * y.d⟩

/-- The embedding of an integer as a fraction. -/
def intF (k : ℤ) : Frac := ⟨k, 1⟩

/-- The fraction mirror of `ewmGo`. -/
def ewmGoF (a : Frac) : Frac → Frac → List Frac → List Frac
  | _, _, [] => []
  | w, y, x :: xs =>
    let w1 := Frac.add ⟨1, 1⟩ (Frac.mul a w)
    let y1 := Frac.div (Frac.add x (Frac.mul (Frac.mul a w) y)) w1
    y1 :: ewmGoF a w1 y1 xs

/-- The fraction mirror of `ewm_mean`. -/
def ewm_meanF (xs : List Frac) (span : ℕ) : List Frac :=
  ewmGoF ⟨(span : ℤ) - 1, (span : ℤ) + 1⟩ ⟨0, 1⟩ ⟨0, 1⟩ xs

/-- The fraction mirror of the MACD line. -/
def macd_lineF (xs : List Frac) (fast slow : ℕ) : List Frac :=
  List.zipWith Frac.sub (ewm_meanF xs fast) (ewm_meanF xs slow)

/-- The fraction mirror of the MACD signal line. -/
def signal_lineF (xs : List Frac) (fast slow signal : ℕ) : List Frac :=
  ewm_meanF (macd_lineF xs fast slow) signal

/-! ## Concrete example data used by the claims -/

/-- A 14-bar series (closes `0..13`) — exactly `RSI_PERIOD` observations. -/
def exData14 : List Bar :=
  [⟨0, 10⟩, ⟨1, 10⟩, ⟨2, 10⟩, ⟨3, 10⟩, ⟨4, 10⟩, ⟨5, 10⟩, ⟨6, 10⟩,
   ⟨7, 10⟩, ⟨8, 10⟩, ⟨9, 10⟩, ⟨10, 10⟩, ⟨11, 10⟩, ⟨12, 10⟩, ⟨13, 10⟩]

/-- 14 constant bars. -/
def constData14 : List Bar := List.replicate 14 ⟨5, 10⟩

/-- A 3-bar series — too short for the RSI. -/
def shortData3 : List Bar := [⟨1, 1⟩, ⟨2, 1⟩, ⟨3, 1⟩]

/-- A data collaborator that produces the short series for ticker "A" and
nothing for anyone else. -/
def exFetch : String → Option (List Bar) :=
  fun s => if s = "A" then some shortData3 else none

/-- A screening result carrying only a ticker and a score (the indicator
fields are irrelevant to the sort). -/
def mkResult (t : String) (s : ℕ) : ScreenResult :=
  { ticker := t, price := 0, rsi := PVal.nan, macd := 0, signal_line := 0,
    histogram := 0, sma_20 := PVal.nan, sma_50 := PVal.nan, sma_200 := PVal.nan,
    volume := 0, avg_volume := PVal.nan, score := s, reasons := [] }

/-- Results A..E with scores 3, 5, 3, 4, 5. -/
def c9Example : List ScreenResult :=
  [mkResult "A" 3, mkResult "B" 5, mkResult "C" 3, mkResult "D" 4, mkResult "E" 5]

/-- 36 constant bars at 100 followed by a rising sawtooth ending at 107. -/
def c1PricesInt : List ℤ :=
  [100, 100, 100, 100, 100, 100, 100, 100, 100, 100, 100, 100,
   100, 100, 100, 100, 100, 100, 100, 100, 100, 100, 100, 100,
   100, 100, 100, 100, 100, 100, 100, 100, 100, 100, 100, 100,
   97, 101, 98, 102, 99, 103, 100, 104, 101, 105, 102, 106, 103, 107]

/-- The corresponding 50-bar series. -/
def c1Data : List Bar := c1PricesInt.map fun k : ℤ => { close := (k : ℚ), volume := 1000 }

/-- The same prices as integer fractions, for the EMA mirror. -/
def c1PricesF : List Frac := c1PricesInt.map intF

/-- The mirrored latest MACD value. -/
def c1macdF : Frac := (macd_lineF c1PricesF MACD_FAST MACD_SLOW).getD 49 ⟨0, 1⟩

/-- The mirrored latest signal value. -/
def c1signalF : Frac :=
  (signal_lineF c1PricesF MACD_FAST MACD_SLOW MACD_SIGNAL).getD 49 ⟨0, 1⟩

/-! ## Indexing and length lemmas -/

theorem getD_range_map {α : Type} (f : ℕ → α) (n i : ℕ) (d : α) (h : i < n) :
    ((List.range n).map f).getD i d = f i := by
  have hl : i < ((List.range n).map f).length := by simpa using h
  rw [List.getD_eq_getElem _ _ hl]
  simp

theorem length_diff (xs : List ℚ) : (diff xs).length = xs.length := by
  simp [diff]

theorem length_rolling_mean (xs : List ℚ) (w : ℕ) :
    (rolling_mean xs w).length = xs.length := by
  simp [rolling_mean]

theorem diff_getD (xs : List ℚ) (i : ℕ) (d : PVal) (h : i < xs.length) :
    (diff xs).getD i d =
      if i = 0 then PVal.nan else PVal.fin (xs.getD i 0 - xs.getD (i - 1) 0) :=
  getD_range_map _ _ _ _ h

theorem rolling_mean_getD (xs : List ℚ) (w i : ℕ) (d : PVal) (h : i < xs.length) :
    (rolling_mean xs w).getD i d =
      if w ≤ i + 1 then
        PVal.fin ((∑ j in Finset.range w, xs.getD (i + 1 - w + j) 0) / (w : ℚ))
      else PVal.nan :=
  getD_range_map _ _ _ _ h

theorem getD_zipWith {α β γ : Type} (f : α → β → γ) (as : List α) (bs : List β) (i : ℕ)
    (da : α) (db : β) (dc : γ) (h1 : i < as.length) (h2 : i < bs.length) :
    (List.zipWith f as bs).getD i dc = f (as.getD i da) (bs.getD i db) := by
  have hz : i < (List.zipWith f as bs).length := by
    rw [List.length_zipWith]; omega
  rw [List.getD_eq_getElem _ _ hz, List.getD_eq_getElem _ _ h1, List.getD_eq_getElem _ _ h2]
  have h3 : (List.zipWith f as bs)[i]? = some (f as[i] bs[i]) := by
    rw [List.getElem?_zipWith, List.getElem?_eq_getElem h1, List.getElem?_eq_getElem h2]
  have h4 : (List.zipWith f as bs)[i]? = some (List.zipWith f as bs)[i] :=
    List.getElem?_eq_getElem hz
  rw [h3] at h4
  exact (Option.some.inj h4).symm

theorem length_ewmGo (a : ℚ) (w y : ℚ) (xs : List ℚ) :
    (ewmGo a w y xs).length = xs.length := by
  induction xs generalizing w y with
  | nil => rfl
  | cons x xs ih => simp only [ewmGo, List.length_cons, ih]

theorem length_ewm_mean (xs : List ℚ) (span : ℕ) :
    (ewm_mean xs span).length = xs.length :=
  length_ewmGo _ _ _ _

/-! ## The adjusted-EMA closed form -/

theorem ewmGo_getD (a : ℚ) (ha : 0 ≤ a) (xs : List ℚ) :
    ∀ (i : ℕ) (w y : ℚ), 0 ≤ w → i < xs.length →
      (ewmGo a w y xs).getD i 0 =
        (a ^ (i + 1) * w * y + ∑ j in Finset.range (i + 1), a ^ (i - j) * xs.getD j 0) /
        (a ^ (i + 1) * w + ∑ j in Finset.range (i + 1), a ^ (i - j)) := by
  induction xs with
  | nil => intro i w y _ hi; simp at hi
  | cons x xs ih =>
    intro i w y hw hi
    have hw1 : (0 : ℚ) < 1 + a * w := by positivity
    cases i with
    | zero =>
      rw [show (ewmGo a w y (x :: xs)).getD 0 0 = (x + a * w * y) / (1 + a * w) from rfl,
        Finset.sum_range_one]
      norm_num
      congr 1 <;> ring
    | succ i =>
      have hi' : i < xs.length := by simpa using hi
      simp only [ewmGo, List.getD_cons_succ]
      rw [ih i (1 + a * w) ((x + a * w * y) / (1 + a * w)) (by positivity) hi']
      have hkey : (1 + a * w) * ((x + a * w * y) / (1 + a * w)) = x + a * w * y :=
        mul_div_cancel₀ _ (ne_of_gt hw1)
      have hsum1 : ∑ j in Finset.range (i + 1 + 1), a ^ (i + 1 - j) * (x :: xs).getD j 0 =
          a ^ (i + 1) * x + ∑ j in Finset.range (i + 1), a ^ (i - j) * xs.getD j 0 := by
        rw [Finset.sum_range_succ']
        simp only [Nat.succ_sub_succ, List.getD_cons_succ, List.getD_cons_zero, Nat.sub_zero]
        ring
      have hsum2 : ∑ j in Finset.range (i + 1 + 1), (a : ℚ) ^ (i + 1 - j) =
          a ^ (i + 1) + ∑ j in Finset.range (i + 1), a ^ (i - j) := by
        rw [Finset.sum_range_succ']
        simp only [Nat.succ_sub_succ, Nat.sub_zero]
        ring
      rw [hsum1, hsum2]
      congr 1
      · rw [mul_assoc (a ^ (i + 1)), hkey]; ring
      · ring

/-! ## Correctness of the fraction mirror -/

theorem Frac.q_add (x y : Frac) (hx : x.d ≠ 0) (hy : y.d ≠ 0) :
    (x.add y).q = x.q + y.q := by
  have hx' : (x.d : ℚ) ≠ 0 := Int.cast_ne_zero.mpr hx
  have hy' : (y.d : ℚ) ≠ 0 := Int.cast_ne_zero.mpr hy
  simp only [Frac.q, Frac.add]
  push_cast
  field_simp

theorem Frac.q_sub (x y : Frac) (hx : x.d ≠ 0) (hy : y.d ≠ 0) :
    (x.sub y).q = x.q - y.q := by
  have hx' : (x.d : ℚ) ≠ 0 := Int.cast_ne_zero.mpr hx
  have hy' : (y.d : ℚ) ≠ 0 := Int.cast_ne_zero.mpr hy
  simp only [Frac.q, Frac.sub]
  push_cast
  field_simp
  ring

theorem Frac.q_mul (x y : Frac) :
    (x.mul y).q = x.q * y.q := by
  simp only [Frac.q, Frac.mul]
  push_cast
  rw [div_mul_div_comm]

theorem Frac.q_div (x y : Frac) (hx : x.d ≠ 0) (hy : y.d ≠ 0) (hyn : y.n ≠ 0) :
    (x.div y).q = x.q / y.q := by
  have hx' : (x.d : ℚ) ≠ 0 := Int.cast_ne_zero.mpr hx
  have hy' : (y.d : ℚ) ≠ 0 := Int.cast_ne_zero.mpr hy
  have hyn' : (y.n : ℚ) ≠ 0 := Int.cast_ne_zero.mpr hyn
  simp only [Frac.q, Frac.div]
  push_cast
  field_simp

/-- When the denominator is positive, the sign of the value is the sign of
the numerator. -/
theorem Frac.q_pos (x : Frac) (hx : 0 < x.d) : 0 < x.q ↔ 0 < x.n := by
  simp only [Frac.q]
  rw [div_pos_iff]
  constructor
  · rintro (⟨h1, _⟩ | ⟨_, h2⟩)
    · exact_mod_cast h1
    · exact absurd h2 (not_lt.mpr (by exact_mod_cast hx.le))
  · intro h
    exact Or.inl ⟨by exact_mod_cast h, by exact_mod_cast hx⟩

theorem Frac.q_lt (x y : Frac) (hx : 0 < x.d) (hy : 0 < y.d) :
    x.q < y.q ↔ x.n * y.d < y.n * x.d := by
  have hx' : (0 : ℚ) < (x.d : ℚ) := by exact_mod_cast hx
  have hy' : (0 : ℚ) < (y.d : ℚ) := by exact_mod_cast hy
  simp only [Frac.q]
  rw [div_lt_div_iff₀ hx' hy']
  constructor
  · intro h; exact_mod_cast h
  · intro h; exact_mod_cast h

/-- The mirror `ewmGoF` computes exactly the rational series of `ewmGo`,
and keeps every emitted denominator positive. -/
theorem ewmGoF_spec (a : Frac) (han : 0 ≤ a.n) (had : 0 < a.d) :
    ∀ (xs : List Frac) (w y : Frac), 0 ≤ w.n → 0 < w.d → 0 < y.d →
      (∀ x ∈ xs, 0 < x.d) →
      (ewmGoF a w y xs).map Frac.q = ewmGo a.q w.q y.q (xs.map Frac.q) ∧
      ∀ z ∈ ewmGoF a w y xs, 0 < z.d := by
  intro xs
  induction xs with
  | nil => intro w y _ _ _ _; exact ⟨rfl, by intro z hz; simp [ewmGoF] at hz⟩
  | cons x xs ih =>
    intro w y hwn hwd hyd hxd
    have hxd0 : 0 < x.d := hxd x (List.mem_cons_self x xs)
    have hxs : ∀ z ∈ xs, 0 < z.d := fun z hz => hxd z (List.mem_cons_of_mem _ hz)
    have haw_d : (Frac.mul a w).d ≠ 0 := by
      simp only [Frac.mul]; exact (mul_pos had hwd).ne'
    have hw1n : 0 < (Frac.add ⟨1, 1⟩ (Frac.mul a w)).n := by
      simp only [Frac.add, Frac.mul]
      have h1 : (0 : ℤ) < 1 * (a.d * w.d) := by
        rw [one_mul]; exact mul_pos had hwd
      have h2 : (0 : ℤ) ≤ a.n * w.n * 1 := by
        rw [mul_one]; exact mul_nonneg han hwn
      omega
    have hw1d : 0 < (Frac.add ⟨1, 1⟩ (Frac.mul a w)).d := by
      simp only [Frac.add, Frac.mul]
      rw [one_mul]; exact mul_pos had hwd
    have hnum_d : 0 < (Frac.add x (Frac.mul (Frac.mul a w) y)).d := by
      simp only [Frac.add, Frac.mul]
      exact mul_pos hxd0 (mul_pos (mul_pos had hwd) hyd)
    have hy1d : 0 < (Frac.div (Frac.add x (Frac.mul (Frac.mul a w) y))
        (Frac.add ⟨1, 1⟩ (Frac.mul a w))).d := by
      simp only [Frac.div]
      exact mul_pos hnum_d hw1n
    have hqw1 : (Frac.add ⟨1, 1⟩ (Frac.mul a w)).q = 1 + a.q * w.q := by
      rw [Frac.q_add _ _ one_ne_zero haw_d, Frac.q_mul]
      norm_num [Frac.q]
    have hqy1 : (Frac.div (Frac.add x (Frac.mul (Frac.mul a w) y))
        (Frac.add ⟨1, 1⟩ (Frac.mul a w))).q = (x.q + a.q * w.q * y.q) / (1 + a.q * w.q) := by
      rw [Frac.q_div _ _ hnum_d.ne' hw1d.ne' hw1n.ne',
        Frac.q_add _ _ hxd0.ne' (by simp only [Frac.mul]; exact (mul_pos (mul_pos had hwd) hyd).ne'),
        Frac.q_mul, Frac.q_mul, hqw1]
    obtain ⟨ihq, ihd⟩ := ih _ _ hw1n.le hw1d hy1d hxs
    constructor
    · simp only [ewmGoF, List.map_cons, ewmGo, ihq, hqw1, hqy1]
    · intro z hz
      simp only [ewmGoF, List.mem_cons] at hz
      rcases hz with rfl | hz
      · exact hy1d
      · exact ihd z hz

/-- Mirror correctness for `ewm_mean` (spans are at least 1 in pandas). -/
theorem ewm_meanF_spec (xs : List Frac) (span : ℕ) (hspan : 1 ≤ span)
    (hxs : ∀ x ∈ xs, 0 < x.d) :
    (ewm_meanF xs span).map Frac.q = ewm_mean (xs.map Frac.q) span ∧
    ∀ z ∈ ewm_meanF xs span, 0 < z.d := by
  have han : (0 : ℤ) ≤ (span : ℤ) - 1 := by
    have : (1 : ℤ) ≤ (span : ℤ) := by exact_mod_cast hspan
    omega
  have had : (0 : ℤ) < (span : ℤ) + 1 := by positivity
  have h := ewmGoF_spec ⟨(span : ℤ) - 1, (span : ℤ) + 1⟩ han had xs ⟨0, 1⟩ ⟨0, 1⟩
    (le_refl 0) one_pos one_pos hxs
  have hq : (Frac.q ⟨(span : ℤ) - 1, (span : ℤ) + 1⟩) = ((span : ℚ) - 1) / ((span : ℚ) + 1) := by
    simp only [Frac.q]
    push_cast
    rfl
  have hq0 : (Frac.q ⟨0, 1⟩) = 0 := by norm_num [Frac.q]
  rw [hq, hq0] at h
  exact h

/-- Mirror correctness for pointwise subtraction of two series. -/
theorem zipWith_subF_spec :
    ∀ (as bs : List Frac), (∀ x ∈ as, 0 < x.d) → (∀ x ∈ bs, 0 < x.d) →
      (List.zipWith Frac.sub as bs).map Frac.q =
        List.zipWith (fun x y => x - y) (as.map Frac.q) (bs.map Frac.q) ∧
      ∀ z ∈ List.zipWith Frac.sub as bs, 0 < z.d := by
  intro as
  induction as with
  | nil => intro bs _ _; exact ⟨by simp, by intro z hz; simp at hz⟩
  | cons a as ih =>
    intro bs ha hb
    cases bs with
    | nil => exact ⟨by simp, by intro z hz; simp at hz⟩
    | cons b bs =>
      have had : 0 < a.d := ha a (List.mem_cons_self a as)
      have hbd : 0 < b.d := hb b (List.mem_cons_self b bs)
      have has : ∀ x ∈ as, 0 < x.d := fun x hx => ha x (List.mem_cons_of_mem _ hx)
      have hbs : ∀ x ∈ bs, 0 < x.d := fun x hx => hb x (List.mem_cons_of_mem _ hx)
      obtain ⟨ihq, ihd⟩ := ih bs has hbs
      constructor
      · simp only [List.zipWith_cons_cons, List.map_cons, ihq,
          Frac.q_sub a b had.ne' hbd.ne']
      · intro z hz
        simp only [List.zipWith_cons_cons, List.mem_cons] at hz
        rcases hz with rfl | hz
        · simp only [Frac.sub]; exact mul_pos had hbd
        · exact ihd z hz

/-- Mirror correctness for the MACD line of `calculate_macd`. -/
theorem macd_lineF_spec (xs : List Frac) (fast slow sg : ℕ)
    (hf : 1 ≤ fast) (hs : 1 ≤ slow) (hxs : ∀ x ∈ xs, 0 < x.d) :
    (macd_lineF xs fast slow).map Frac.q = (calculate_macd (xs.map Frac.q) fast slow sg).macd ∧
    ∀ z ∈ macd_lineF xs fast slow, 0 < z.d := by
  obtain ⟨hfq, hfd⟩ := ewm_meanF_spec xs fast hf hxs
  obtain ⟨hsq, hsd⟩ := ewm_meanF_spec xs slow hs hxs
  obtain ⟨hzq, hzd⟩ := zipWith_subF_spec (ewm_meanF xs fast) (ewm_meanF xs slow) hfd hsd
  rw [hfq, hsq] at hzq
  exact ⟨hzq, hzd⟩

/-- Mirror correctness for the signal line of `calculate_macd`. -/
theorem signal_lineF_spec (xs : List Frac) (fast slow sg : ℕ)
    (hf : 1 ≤ fast) (hs : 1 ≤ slow) (hg : 1 ≤ sg) (hxs : ∀ x ∈ xs, 0 < x.d) :
    (signal_lineF xs fast slow sg).map Frac.q =
      (calculate_macd (xs.map Frac.q) fast slow sg).signal ∧
    ∀ z ∈ signal_lineF xs fast slow sg, 0 < z.d := by
  obtain ⟨hmq, hmd⟩ := macd_lineF_spec xs fast slow sg hf hs hxs
  obtain ⟨hgq, hgd⟩ := ewm_meanF_spec (macd_lineF xs fast slow) sg hg hmd
  rw [hmq] at hgq
  exact ⟨hgq, hgd⟩

/-! ## Bridge lemmas for the indicator and screening layers -/

theorem getD_map_of_lt {α β : Type} (f : α → β) (l : List α) (i : ℕ) (d : β) (d' : α)
    (h : i < l.length) : (l.map f).getD i d = f (l.getD i d') := by
  have h2 : i < (l.map f).length := by simpa using h
  rw [List.getD_eq_getElem _ _ h2, List.getD_eq_getElem _ _ h, List.getElem_map]

theorem length_gainSeries (prices : List ℚ) (period : ℕ) :
    (gainSeries prices period).length = prices.length := by
  simp [gainSeries, length_rolling_mean, length_diff]

theorem length_lossSeries (prices : List ℚ) (period : ℕ) :
    (lossSeries prices period).length = prices.length := by
  simp [lossSeries, length_rolling_mean, length_diff]

theorem length_calculate_rsi (prices : List ℚ) (period : ℕ) :
    (calculate_rsi prices period).length = prices.length := by
  simp [calculate_rsi, List.length_zipWith, length_gainSeries, length_lossSeries]

theorem calculate_rsi_getD (prices : List ℚ) (period i : ℕ) (d : PVal)
    (h : i < prices.length) :
    (calculate_rsi prices period).getD i d =
      PVal.sub (PVal.fin 100) (PVal.div (PVal.fin 100) (PVal.add (PVal.fin 1)
        (PVal.div ((gainSeries prices period).getD i PVal.nan)
          ((lossSeries prices period).getD i PVal.nan)))) := by
  have h1 : i < (gainSeries prices period).length := by rw [length_gainSeries]; exact h
  have h2 : i < (lossSeries prices period).length := by rw [length_lossSeries]; exact h
  have h3 : i < (List.zipWith PVal.div (gainSeries prices period)
      (lossSeries prices period)).length := by
    rw [List.length_zipWith]; omega
  rw [calculate_rsi, getD_map_of_lt _ _ _ _ PVal.nan h3,
    getD_zipWith _ _ _ _ PVal.nan PVal.nan PVal.nan h1 h2]

theorem length_macd (prices : List ℚ) (fast slow sg : ℕ) :
    (calculate_macd prices fast slow sg).macd.length = prices.length := by
  simp [calculate_macd, List.length_zipWith, length_ewm_mean]

theorem length_signal (prices : List ℚ) (fast slow sg : ℕ) :
    (calculate_macd prices fast slow sg).signal.length = prices.length := by
  simp [calculate_macd, length_ewm_mean, List.length_zipWith]

theorem length_histogram (prices : List ℚ) (fast slow sg : ℕ) :
    (calculate_macd prices fast slow sg).histogram.length = prices.length := by
  simp [calculate_macd, List.length_zipWith, length_ewm_mean]

/-- The latest histogram value is the latest MACD value minus the latest
signal value (series are aligned and the histogram is their pointwise
difference). -/
theorem histogram_lastD (prices : List ℚ) (fast slow sg : ℕ) (h : prices ≠ []) :
    lastD (calculate_macd prices fast slow sg).histogram 0 =
      lastD (calculate_macd prices fast slow sg).macd 0 -
      lastD (calculate_macd prices fast slow sg).signal 0 := by
  have hpos : 0 < prices.length := List.length_pos.mpr h
  have hm : prices.length - 1 < (calculate_macd prices fast slow sg).macd.length := by
    rw [length_macd]; omega
  have hs : prices.length - 1 < (calculate_macd prices fast slow sg).signal.length := by
    rw [length_signal]; omega
  have hh : (calculate_macd prices fast slow sg).histogram =
      List.zipWith (fun x y => x - y) (calculate_macd prices fast slow sg).macd
        (calculate_macd prices fast slow sg).signal := rfl
  rw [lastD, lastD, lastD, length_histogram, length_macd, length_signal, hh,
    getD_zipWith _ _ _ _ 0 0 0 hm hs]

theorem screen_stock_some (t : String) (data : List Bar) (h : RSI_PERIOD ≤ data.length) :
    screen_stock t data = some (screenCompute t data) := by
  rw [screen_stock, if_neg (by omega)]

theorem screen_stock_none (t : String) (data : List Bar) (h : data.length < RSI_PERIOD) :
    screen_stock t data = none := by
  rw [screen_stock, if_pos h]

theorem screenCompute_ticker (t : String) (data : List Bar) :
    (screenCompute t data).ticker = t := rfl

theorem screenCompute_price (t : String) (data : List Bar) :
    (screenCompute t data).price = lastD (data.map Bar.close) 0 := rfl

theorem screenCompute_rsi (t : String) (data : List Bar) :
    (screenCompute t data).rsi =
      lastD (calculate_rsi (data.map Bar.close) RSI_PERIOD) PVal.nan := rfl

theorem screenCompute_macd (t : String) (data : List Bar) :
    (screenCompute t data).macd =
      lastD (calculate_macd (data.map Bar.close) MACD_FAST MACD_SLOW MACD_SIGNAL).macd 0 := rfl

theorem screenCompute_signal_line (t : String) (data : List Bar) :
    (screenCompute t data).signal_line =
      lastD (calculate_macd (data.map Bar.close) MACD_FAST MACD_SLOW MACD_SIGNAL).signal 0 := rfl

theorem screenCompute_histogram (t : String) (data : List Bar) :
    (screenCompute t data).histogram =
      lastD (calculate_macd (data.map Bar.close) MACD_FAST MACD_SLOW MACD_SIGNAL).histogram 0 :=
  rfl

theorem screenCompute_sma_20 (t : String) (data : List Bar) :
    (screenCompute t data).sma_20 =
      lastD (rolling_mean (data.map Bar.close) 20) PVal.nan := rfl

theorem screenCompute_sma_50 (t : String) (data : List Bar) :
    (screenCompute t data).sma_50 =
      lastD (rolling_mean (data.map Bar.close) 50) PVal.nan := rfl

theorem screenCompute_sma_200 (t : String) (data : List Bar) :
    (screenCompute t data).sma_200 =
      lastD (rolling_mean (data.map Bar.close) 200) PVal.nan := rfl

theorem screenCompute_score (t : String) (data : List Bar) :
    (screenCompute t data).score =
      (if PVal.blt (PVal.fin 30) (screenCompute t data).rsi &&
          PVal.blt (screenCompute t data).rsi (PVal.fin 70) then
        (if PVal.blt (PVal.fin 40) (screenCompute t data).rsi &&
            PVal.blt (screenCompute t data).rsi (PVal.fin 60) then 2 else 1)
      else 0) +
      (if 0 < (screenCompute t data).histogram then 1 else 0) +
      (if (screenCompute t data).signal_line < (screenCompute t data).macd then 1 else 0) +
      (if priceAbove (screenCompute t data).price (screenCompute t data).sma_20 then 1 else 0) +
      (if priceAbove (screenCompute t data).price (screenCompute t data).sma_50 then 1 else 0) :=
  rfl

theorem screenCompute_reasons (t : String) (data : List Bar) :
    (screenCompute t data).reasons =
      (if PVal.blt (PVal.fin 30) (screenCompute t data).rsi &&
          PVal.blt (screenCompute t data).rsi (PVal.fin 70) then
        [if PVal.blt (PVal.fin 40) (screenCompute t data).rsi &&
            PVal.blt (screenCompute t data).rsi (PVal.fin 60) then Reason.rsi_neutral
          else Reason.rsi_trading]
      else []) ++
      (if 0 < (screenCompute t data).histogram then [Reason.macd_histogram_positive] else []) ++
      (if (screenCompute t data).signal_line < (screenCompute t data).macd then
        [Reason.macd_above_signal] else []) ++
      (if priceAbove (screenCompute t data).price (screenCompute t data).sma_20 then
        [Reason.above_sma_20] else []) ++
      (if priceAbove (screenCompute t data).price (screenCompute t data).sma_50 then
        [Reason.above_sma_50] else []) :=
  rfl

/-! ## Small facts about `PVal` arithmetic and the RSI pointwise formula -/

theorem PVal.div_nan_left (x : PVal) : PVal.div PVal.nan x = PVal.nan := by
  cases x <;> rfl

theorem PVal.div_nan_right (x : PVal) : PVal.div x PVal.nan = PVal.nan := by
  cases x <;> rfl

theorem PVal.add_fin_nan (q : ℚ) : PVal.add (PVal.fin q) PVal.nan = PVal.nan := rfl

theorem PVal.sub_fin_nan (q : ℚ) : PVal.sub (PVal.fin q) PVal.nan = PVal.nan := rfl

theorem gainVal_nonneg (d : PVal) : 0 ≤ gainVal d := by
  cases d with
  | fin q =>
    rw [show gainVal (PVal.fin q) = if 0 < q then q else 0 from rfl]
    by_cases h : 0 < q
    · rw [if_pos h]; exact h.le
    · rw [if_neg h]
  | nan => exact le_refl 0
  | pinf => exact le_refl 0
  | ninf => exact le_refl 0

theorem lossVal_nonneg (d : PVal) : 0 ≤ lossVal d := by
  cases d with
  | fin q =>
    rw [show lossVal (PVal.fin q) = if q < 0 then -q else 0 from rfl]
    by_cases h : q < 0
    · rw [if_pos h]; linarith
    · rw [if_neg h]
  | nan => exact le_refl 0
  | pinf => exact le_refl 0
  | ninf => exact le_refl 0

theorem gainSeries_getD (prices : List ℚ) (period i : ℕ) (h : i < prices.length) :
    (gainSeries prices period).getD i PVal.nan =
      if period ≤ i + 1 then
        PVal.fin ((∑ j in Finset.range period,
          gainVal ((diff prices).getD (i + 1 - period + j) PVal.nan)) / (period : ℚ))
      else PVal.nan := by
  have hG : ((diff prices).map gainVal).length = prices.length := by
    simp [length_diff]
  rw [gainSeries, rolling_mean_getD _ _ _ _ (by rw [hG]; exact h)]
  by_cases hp : period ≤ i + 1
  · rw [if_pos hp, if_pos hp]
    congr 1
    congr 1
    refine Finset.sum_congr rfl fun j hj => ?_
    have hj' : j < period := Finset.mem_range.mp hj
    have hidx : i + 1 - period + j < (diff prices).length := by
      rw [length_diff]; omega
    exact getD_map_of_lt gainVal (diff prices) _ 0 PVal.nan hidx
  · rw [if_neg hp, if_neg hp]

theorem lossSeries_getD (prices : List ℚ) (period i : ℕ) (h : i < prices.length) :
    (lossSeries prices period).getD i PVal.nan =
      if period ≤ i + 1 then
        PVal.fin ((∑ j in Finset.range period,
          lossVal ((diff prices).getD (i + 1 - period + j) PVal.nan)) / (period : ℚ))
      else PVal.nan := by
  have hG : ((diff prices).map lossVal).length = prices.length := by
    simp [length_diff]
  rw [lossSeries, rolling_mean_getD _ _ _ _ (by rw [hG]; exact h)]
  by_cases hp : period ≤ i + 1
  · rw [if_pos hp, if_pos hp]
    congr 1
    congr 1
    refine Finset.sum_congr rfl fun j hj => ?_
    have hj' : j < period := Finset.mem_range.mp hj
    have hidx : i + 1 - period + j < (diff prices).length := by
      rw [length_diff]; omega
    exact getD_map_of_lt lossVal (diff prices) _ 0 PVal.nan hidx
  · rw [if_neg hp, if_neg hp]

/-- The RSI formula at one index never yields `NaN` when the gain and loss
means are defined, nonnegative and not both zero. -/
theorem rsi_point_ne_nan (g l : ℚ) (hg : 0 ≤ g) (hl : 0 ≤ l) (h : 0 < g ∨ 0 < l) :
    PVal.sub (PVal.fin 100) (PVal.div (PVal.fin 100) (PVal.add (PVal.fin 1)
      (PVal.div (PVal.fin g) (PVal.fin l)))) ≠ PVal.nan := by
  by_cases hl0 : l = 0
  · subst hl0
    have hg0 : 0 < g := by rcases h with h | h; exact h; exact absurd h (lt_irrefl 0)
    rw [show PVal.div (PVal.fin g) (PVal.fin 0) = PVal.pinf by
      simp [PVal.div, hg0]]
    intro hc
    exact PVal.noConfusion hc
  · have hlpos : 0 < l := lt_of_le_of_ne hl (Ne.symm hl0)
    rw [show PVal.div (PVal.fin g) (PVal.fin l) = PVal.fin (g / l) by
      simp [PVal.div, hl0]]
    have hrs : 0 ≤ g / l := div_nonneg hg hl
    have h1 : (1 : ℚ) + g / l ≠ 0 := by positivity
    rw [show PVal.add (PVal.fin 1) (PVal.fin (g / l)) = PVal.fin (1 + g / l) from rfl]
    rw [show PVal.div (PVal.fin 100) (PVal.fin (1 + g / l)) = PVal.fin (100 / (1 + g / l)) by
      simp [PVal.div, h1]]
    intro hc
    exact PVal.noConfusion hc

/-- On a constant price series every RSI value is `NaN`: the gain and loss
rolling means are `NaN` during warm-up and exactly zero afterwards, and
`0/0` propagates `NaN` through the formula. -/
theorem rsi_replicate_nan (c : ℚ) (n period i : ℕ) (hi : i < n) :
    (calculate_rsi (List.replicate n c) period).getD i PVal.nan = PVal.nan := by
  have hlen : (List.replicate n c).length = n := List.length_replicate n c
  have hdiff : ∀ j, j < n →
      gainVal ((diff (List.replicate n c)).getD j PVal.nan) = 0 ∧
      lossVal ((diff (List.replicate n c)).getD j PVal.nan) = 0 := by
    intro j hj
    rw [diff_getD _ _ _ (by rw [hlen]; exact hj)]
    by_cases hj0 : j = 0
    · simp [hj0, gainVal, lossVal]
    · rw [if_neg hj0]
      have h1 : (List.replicate n c).getD j 0 = c := by
        rw [List.getD_eq_getElem _ _ (by rw [hlen]; omega), List.getElem_replicate]
      have h2 : (List.replicate n c).getD (j - 1) 0 = c := by
        rw [List.getD_eq_getElem _ _ (by rw [hlen]; omega), List.getElem_replicate]
      rw [h1, h2]
      simp [gainVal, lossVal]
  rw [calculate_rsi_getD _ _ _ _ (by rw [hlen]; exact hi)]
  rw [gainSeries_getD _ _ _ (by rw [hlen]; exact hi),
    lossSeries_getD _ _ _ (by rw [hlen]; exact hi)]
  by_cases hp : period ≤ i + 1
  · rw [if_pos hp, if_pos hp]
    have hzero : ∀ j ∈ Finset.range period,
        gainVal ((diff (List.replicate n c)).getD (i + 1 - period + j) PVal.nan) = 0 := by
      intro j hj
      exact (hdiff _ (by have := Finset.mem_range.mp hj; omega)).1
    have hzero' : ∀ j ∈ Finset.range period,
        lossVal ((diff (List.replicate n c)).getD (i + 1 - period + j) PVal.nan) = 0 := by
      intro j hj
      exact (hdiff _ (by have := Finset.mem_range.mp hj; omega)).2
    rw [Finset.sum_congr rfl hzero, Finset.sum_congr rfl hzero']
    rw [Finset.sum_const_zero]
    rw [show ((0 : ℚ) / (period : ℚ)) = 0 from zero_div _]
    rw [show PVal.div (PVal.fin 0) (PVal.fin 0) = PVal.nan by simp [PVal.div]]
    rfl
  · rw [if_neg hp, if_neg hp]
    rw [PVal.div_nan_left]
    rfl

/-! ## Claim C2: the EMA recurrence -/

/-- C2 (amended): `ewm_mean` (pandas `adjust=True`) produces a value at
every index and the same length as its input; it seeds from the first input
value, and each value is the `(1-α)`-power weighted mean of the prefix with
`α = 2/(span+1)` — not the plain recurrence `ema[i] = α·x[i] + (1-α)·ema[i-1]`. -/
theorem c2_ewm_adjusted (xs : List ℚ) (span : ℕ) (hspan : 1 ≤ span) (i : ℕ)
    (hi : i < xs.length) :
    (ewm_mean xs span).length = xs.length ∧
    (ewm_mean xs span).getD 0 0 = xs.getD 0 0 ∧
    (ewm_mean xs span).getD i 0 =
      (∑ j in Finset.range (i + 1), (1 - 2 / ((span : ℚ) + 1)) ^ (i - j) * xs.getD j 0) /
      (∑ j in Finset.range (i + 1), (1 - 2 / ((span : ℚ) + 1)) ^ (i - j)) := by
  have hs1 : (1 : ℚ) ≤ (span : ℚ) := by exact_mod_cast hspan
  have hsd : ((span : ℚ) + 1) ≠ 0 := by positivity
  have ha_eq : ((span : ℚ) - 1) / ((span : ℚ) + 1) = 1 - 2 / ((span : ℚ) + 1) := by
    field_simp
    ring
  have ha : 0 ≤ ((span : ℚ) - 1) / ((span : ℚ) + 1) := by
    apply div_nonneg <;> linarith
  have key : ∀ k, k < xs.length → (ewm_mean xs span).getD k 0 =
      (∑ j in Finset.range (k + 1), (((span : ℚ) - 1) / ((span : ℚ) + 1)) ^ (k - j) *
        xs.getD j 0) /
      (∑ j in Finset.range (k + 1), (((span : ℚ) - 1) / ((span : ℚ) + 1)) ^ (k - j)) := by
    intro k hk
    rw [ewm_mean, ewmGo_getD _ ha xs k 0 0 (le_refl 0) hk]
    norm_num
  refine ⟨length_ewm_mean xs span, ?_, ?_⟩
  · rw [key 0 (by omega)]
    simp
  · rw [key i hi, ha_eq]

/-- C2 counterexample: on input `[0, 1]` with span 9, the second emitted
value is `5/9` (the adjusted weighted mean), not the `1/5` demanded by the
recurrence `ema[1] = α·x[1] + (1-α)·ema[0]` with `α = 2/(span+1)`. -/
theorem c2_counterexample :
    ¬ ((ewm_mean [0, 1] 9).getD 1 0 =
      (2 / ((9 : ℚ) + 1)) * 1 + (1 - 2 / ((9 : ℚ) + 1)) * ((ewm_mean [0, 1] 9).getD 0 0)) := by
  have h1 : (ewm_mean [(0 : ℚ), 1] 9).getD 1 0 = 5 / 9 := by
    norm_num [ewm_mean, ewmGo]
  have h0 : (ewm_mean [(0 : ℚ), 1] 9).getD 0 0 = 0 := by
    norm_num [ewm_mean, ewmGo]
  rw [h1, h0]
  norm_num

/-- C2 witness: the amended closed form evaluated on `[1, 2]` with span 9
at index 1. -/
theorem c2_witness :
    (ewm_mean [(1 : ℚ), 2] 9).getD 1 0 =
      (∑ j in Finset.range 2, (1 - 2 / ((9 : ℚ) + 1)) ^ (1 - j) * [(1 : ℚ), 2].getD j 0) /
      (∑ j in Finset.range 2, (1 - 2 / ((9 : ℚ) + 1)) ^ (1 - j)) :=
  (c2_ewm_adjusted [1, 2] 9 (by norm_num) 1 (by norm_num)).2.2

/-! ## Claim C3: the RSI warm-up prefix -/

/-- C3 (amended): the day-over-day difference is undefined at index 0, and
the RSI output is undefined at each of the first `period - 1` indices
(pandas's `where` turns the index-0 `NaN` difference into a gain/loss of 0,
so the rolling means—and hence the RSI—are already defined at index
`period - 1`). -/
theorem c3_rsi_warmup (prices : List ℚ) (period i : ℕ)
    (h1 : i + 1 < period) (h2 : i < prices.length) :
    (diff prices).getD 0 (PVal.fin 0) = PVal.nan ∧
    (calculate_rsi prices period).getD i (PVal.fin 0) = PVal.nan := by
  constructor
  · rw [diff_getD _ _ _ (by omega), if_pos rfl]
  · have hrsi : (calculate_rsi prices period).getD i (PVal.fin 0) =
        (calculate_rsi prices period).getD i PVal.nan := by
      rw [List.getD_eq_getElem _ _ (by rw [length_calculate_rsi]; exact h2),
        List.getD_eq_getElem _ _ (by rw [length_calculate_rsi]; exact h2)]
    rw [hrsi, calculate_rsi_getD _ _ _ _ h2, gainSeries_getD _ _ _ h2,
      if_neg (by omega), PVal.div_nan_left, PVal.add_fin_nan, PVal.div_nan_right,
      PVal.sub_fin_nan]

/-- C3 counterexample: for the strictly increasing series `0..14` with
period 14, the RSI is already defined (it is exactly 100) at index 13,
which lies inside the claimed undefined range `0..period-1`. -/
theorem c3_counterexample :
    13 < RSI_PERIOD ∧
    (calculate_rsi [(0 : ℚ), 1, 2, 3, 4, 5, 6, 7, 8, 9, 10, 11, 12, 13, 14]
      RSI_PERIOD).getD 13 PVal.nan = PVal.fin 100 := by
  have hdiff : ∀ j, j < 15 →
      ((diff [(0 : ℚ), 1, 2, 3, 4, 5, 6, 7, 8, 9, 10, 11, 12, 13, 14])[j]?).getD PVal.nan =
        if j = 0 then PVal.nan else PVal.fin 1 := by
    intro j hj
    rw [← List.getD_eq_getElem?_getD, diff_getD _ _ _ (by norm_num; omega)]
    interval_cases j <;> norm_num [List.getD]
  constructor
  · norm_num [RSI_PERIOD]
  · rw [RSI_PERIOD, calculate_rsi_getD _ _ _ _ (by norm_num),
      gainSeries_getD _ _ _ (by norm_num), lossSeries_getD _ _ _ (by norm_num)]
    norm_num [Finset.sum_range_succ, hdiff, gainVal, lossVal]
    rw [show PVal.div (PVal.fin (13 / 14)) (PVal.fin 0) = PVal.pinf by
      norm_num [PVal.div]]
    rw [show PVal.add (PVal.fin 1) PVal.pinf = PVal.pinf from rfl]
    rw [show PVal.div (PVal.fin 100) PVal.pinf = PVal.fin 0 from rfl]
    norm_num [PVal.sub, PVal.neg, PVal.add]

/-- C3 witness: the amended statement evaluated on `[1, 2, 3]` with period
14 at index 1. -/
theorem c3_witness :
    (diff [(1 : ℚ), 2, 3]).getD 0 (PVal.fin 0) = PVal.nan ∧
    (calculate_rsi [(1 : ℚ), 2, 3] 14).getD 1 (PVal.fin 0) = PVal.nan :=
  c3_rsi_warmup [1, 2, 3] 14 1 (by norm_num) (by norm_num)

/-! ## Claim C4: zero-loss saturation at RSI = 100 -/

/-- C4: whenever the rolling loss mean is (a defined) zero and the rolling
gain mean is (a defined) positive value, the RSI formula produces exactly
100 at that index: the division yields `+inf`, `100/(1+inf)` collapses to
`0`, and `100 - 0 = 100` — no error and no `NaN`. -/
theorem c4_rsi_saturates (prices : List ℚ) (period i : ℕ) (g : ℚ)
    (hg : (gainSeries prices period).getD i PVal.nan = PVal.fin g) (hgpos : 0 < g)
    (hl : (lossSeries prices period).getD i PVal.nan = PVal.fin 0) :
    (calculate_rsi prices period).getD i PVal.nan = PVal.fin 100 := by
  have hi : i < prices.length := by
    by_contra hcon
    rw [not_lt] at hcon
    rw [List.getD_eq_default _ _ (by rw [length_gainSeries]; exact hcon)] at hg
    exact PVal.noConfusion hg
  rw [calculate_rsi_getD _ _ _ _ hi, hg, hl]
  rw [show PVal.div (PVal.fin g) (PVal.fin 0) = PVal.pinf by simp [PVal.div, hgpos]]
  rw [show PVal.add (PVal.fin 1) PVal.pinf = PVal.pinf from rfl]
  rw [show PVal.div (PVal.fin 100) PVal.pinf = PVal.fin 0 from rfl]
  norm_num [PVal.sub, PVal.neg, PVal.add]

/-- On the strictly increasing series `0..14` every defined day-over-day
difference is `+1` (and the index-0 one is `NaN`). -/
theorem diff_inc15 (j : ℕ) (hj : j < 15) :
    ((diff [(0 : ℚ), 1, 2, 3, 4, 5, 6, 7, 8, 9, 10, 11, 12, 13, 14])[j]?).getD PVal.nan =
      if j = 0 then PVal.nan else PVal.fin 1 := by
  rw [← List.getD_eq_getElem?_getD, diff_getD _ _ _ (by norm_num; omega)]
  interval_cases j <;> norm_num [List.getD]

/-- C4 witness: on the series `0..14` with period 14, at index 14 the gain
mean is 1, the loss mean is 0, and the RSI is exactly 100. -/
theorem c4_witness :
    (calculate_rsi [(0 : ℚ), 1, 2, 3, 4, 5, 6, 7, 8, 9, 10, 11, 12, 13, 14] 14).getD 14
      PVal.nan = PVal.fin 100 :=
  c4_rsi_saturates _ 14 14 1
    (by
      rw [gainSeries_getD _ _ _ (by norm_num)]
      norm_num [Finset.sum_range_succ, diff_inc15, gainVal])
    (by norm_num)
    (by
      rw [lossSeries_getD _ _ _ (by norm_num)]
      norm_num [Finset.sum_range_succ, diff_inc15, lossVal])

/-! ## Claim C5: constant series -/

/-- C5: on a constant price series the code does *not* produce RSI = 50
after the warm-up — both rolling means are exactly zero there, `0/0` is
`NaN`, and the whole RSI series is `NaN` (here: 20 constant bars, period
14; in particular index 14, the first index the claim says should be 50,
is `NaN`). -/
theorem c5_constant_rsi_is_nan :
    calculate_rsi (List.replicate 20 (5 : ℚ)) 14 = List.replicate 20 PVal.nan := by
  apply List.ext_getElem
  · rw [length_calculate_rsi]; simp
  · intro i h1 h2
    have hi : i < 20 := by simpa using h2
    have hv := rsi_replicate_nan 5 20 14 i hi
    rw [List.getD_eq_getElem _ _ (by rw [length_calculate_rsi]; simpa using hi)] at hv
    rw [hv]
    exact Eq.symm (List.getElem_replicate PVal.nan h2)

/-- Every successful screening result is `screenCompute` of its data. -/
theorem screen_stock_inv (t : String) (data : List Bar) (r : ScreenResult)
    (h : screen_stock t data = some r) :
    RSI_PERIOD ≤ data.length ∧ r = screenCompute t data := by
  by_cases hlen : data.length < RSI_PERIOD
  · rw [screen_stock_none _ _ hlen] at h
    exact Option.noConfusion h
  · rw [not_lt] at hlen
    rw [screen_stock_some _ _ hlen] at h
    exact ⟨hlen, (Option.some.inj h).symm⟩

/-! ## Claim C1: the score range -/

/-- C1 (amended): every score produced by `screen_stock` is an integer in
`[0, 6]` — criterion 1 alone can contribute 2 points (the 40–60 sub-bonus),
so with the four other one-point criteria the attainable maximum is 6, not
the documented 5. -/
theorem c1_score_bounded (t : String) (data : List Bar) (r : ScreenResult)
    (h : screen_stock t data = some r) : r.score ≤ 6 := by
  obtain ⟨-, hr⟩ := screen_stock_inv t data r h
  subst hr
  rw [screenCompute_score]
  split_ifs <;> norm_num

/-- C1 witness: the score bound applied to a concrete 14-bar screening. -/
theorem c1_witness : (screenCompute "A" exData14).score ≤ 6 :=
  c1_score_bounded "A" exData14 (screenCompute "A" exData14)
    (screen_stock_some "A" exData14 (by norm_num [exData14, RSI_PERIOD]))

/-! ## Claim C10: the two MACD criteria coincide -/

/-- C10: in every successful screening result the latest histogram equals
the latest MACD value minus the latest signal value, so criterion 2
(histogram > 0) and criterion 3 (MACD > signal) pass or fail together and
together contribute 0 or 2 points, never 1. -/
theorem c10_macd_criteria_agree (t : String) (data : List Bar) (r : ScreenResult)
    (h : screen_stock t data = some r) :
    r.histogram = r.macd - r.signal_line ∧
    ((0 < r.histogram) ↔ (r.signal_line < r.macd)) ∧
    ((if 0 < r.histogram then 1 else 0) + (if r.signal_line < r.macd then 1 else 0) = 0 ∨
      (if 0 < r.histogram then 1 else 0) + (if r.signal_line < r.macd then 1 else 0) = 2) := by
  obtain ⟨hlen, hr⟩ := screen_stock_inv t data r h
  subst hr
  have hne : data.map Bar.close ≠ [] := by
    intro hc
    have h0 : data.length = 0 := by simpa using congrArg List.length hc
    rw [RSI_PERIOD] at hlen
    omega
  have h1 : (screenCompute t data).histogram =
      (screenCompute t data).macd - (screenCompute t data).signal_line := by
    rw [screenCompute_histogram, screenCompute_macd, screenCompute_signal_line]
    exact histogram_lastD _ _ _ _ hne
  have hiff : (0 < (screenCompute t data).histogram) ↔
      ((screenCompute t data).signal_line < (screenCompute t data).macd) := by
    rw [h1]
    exact sub_pos
  refine ⟨h1, hiff, ?_⟩
  by_cases hc : (screenCompute t data).signal_line < (screenCompute t data).macd
  · right
    rw [if_pos (hiff.mpr hc), if_pos hc]
  · left
    rw [if_neg (fun hpos => hc (hiff.mp hpos)), if_neg hc]

/-- C10 witness: the agreement of the two MACD criteria on a concrete
14-bar screening. -/
theorem c10_witness :
    (screenCompute "A" exData14).histogram =
      (screenCompute "A" exData14).macd - (screenCompute "A" exData14).signal_line ∧
    ((0 < (screenCompute "A" exData14).histogram) ↔
      ((screenCompute "A" exData14).signal_line < (screenCompute "A" exData14).macd)) ∧
    ((if 0 < (screenCompute "A" exData14).histogram then 1 else 0) +
      (if (screenCompute "A" exData14).signal_line < (screenCompute "A" exData14).macd
        then 1 else 0) = 0 ∨
      (if 0 < (screenCompute "A" exData14).histogram then 1 else 0) +
      (if (screenCompute "A" exData14).signal_line < (screenCompute "A" exData14).macd
        then 1 else 0) = 2) :=
  c10_macd_criteria_agree "A" exData14 (screenCompute "A" exData14)
    (screen_stock_some "A" exData14 (by norm_num [exData14, RSI_PERIOD]))

/-! ## Claim C7: undefined comparators fail closed -/

/-- C7: when the latest 20-day (resp. 50-day) SMA is undefined, the
criterion comparing the price against it evaluates to false — no point, no
reason string — and screening still returns normally. -/
theorem c7_undefined_comparator (t : String) (data : List Bar) (r : ScreenResult)
    (h : screen_stock t data = some r) :
    (r.sma_20 = PVal.nan →
      priceAbove r.price r.sma_20 = false ∧ Reason.above_sma_20 ∉ r.reasons) ∧
    (r.sma_50 = PVal.nan →
      priceAbove r.price r.sma_50 = false ∧ Reason.above_sma_50 ∉ r.reasons) := by
  obtain ⟨hlen, hr⟩ := screen_stock_inv t data r h
  subst hr
  constructor
  · intro h20
    have hfalse : priceAbove (screenCompute t data).price
        (screenCompute t data).sma_20 = false := by
      rw [h20]; rfl
    refine ⟨hfalse, ?_⟩
    rw [screenCompute_reasons, hfalse]
    split_ifs <;> simp_all
  · intro h50
    have hfalse : priceAbove (screenCompute t data).price
        (screenCompute t data).sma_50 = false := by
      rw [h50]; rfl
    refine ⟨hfalse, ?_⟩
    rw [screenCompute_reasons, hfalse]
    split_ifs <;> simp_all

/-- C7 witness: with only 14 bars the 20-day SMA (and the 50-day SMA) of
`exData14` is undefined, and both SMA criteria fail closed. -/
theorem c7_witness :
    priceAbove (screenCompute "A" exData14).price (screenCompute "A" exData14).sma_20 = false ∧
    Reason.above_sma_20 ∉ (screenCompute "A" exData14).reasons := by
  have h20 : (screenCompute "A" exData14).sma_20 = PVal.nan := by
    rw [screenCompute_sma_20, lastD]
    rw [List.getD_eq_getElem?_getD]
    norm_num [rolling_mean, exData14]
  exact (c7_undefined_comparator "A" exData14 (screenCompute "A" exData14)
    (screen_stock_some "A" exData14 (by norm_num [exData14, RSI_PERIOD]))).1 h20

/-! ## Claim C6: a series of exactly `RSI_PERIOD` bars -/

/-- C6 (amended): with exactly 14 bars screening returns a result (no
refusal); the 50- and 200-day SMAs are undefined and both SMA criteria fail
closed; and the latest RSI is defined provided the closes are not all equal
(pandas's `where` already zeroes the index-0 `NaN`, so only the 0/0 case of
an all-constant window is undefined). -/
theorem c6_exact_period (t : String) (data : List Bar)
    (hlen : data.length = RSI_PERIOD)
    (hnc : ∃ i, i + 1 < data.length ∧
      (data.map Bar.close).getD i 0 ≠ (data.map Bar.close).getD (i + 1) 0) :
    ∃ r, screen_stock t data = some r ∧ r.rsi ≠ PVal.nan ∧
      r.sma_50 = PVal.nan ∧ r.sma_200 = PVal.nan ∧
      priceAbove r.price r.sma_20 = false ∧ priceAbove r.price r.sma_50 = false := by
  have h14 : data.length = 14 := hlen
  have hcl : (data.map Bar.close).length = 14 := by rw [List.length_map, h14]
  have hsma : ∀ w : ℕ, 15 ≤ w →
      lastD (rolling_mean (data.map Bar.close) w) PVal.nan = PVal.nan := by
    intro w hw
    rw [lastD, length_rolling_mean, hcl,
      rolling_mean_getD _ _ _ _ (by rw [hcl]; norm_num), if_neg (by omega)]
  have hs20 : (screenCompute t data).sma_20 = PVal.nan := by
    rw [screenCompute_sma_20, hsma 20 (by norm_num)]
  have hs50 : (screenCompute t data).sma_50 = PVal.nan := by
    rw [screenCompute_sma_50, hsma 50 (by norm_num)]
  refine ⟨screenCompute t data, screen_stock_some _ _ hlen.ge, ?_, hs50, ?_, ?_, ?_⟩
  · -- the latest RSI is defined
    rw [screenCompute_rsi, lastD, length_calculate_rsi, hcl]
    rw [calculate_rsi_getD _ _ _ _ (by rw [hcl]; norm_num)]
    rw [gainSeries_getD _ _ _ (by rw [hcl]; norm_num),
      lossSeries_getD _ _ _ (by rw [hcl]; norm_num)]
    rw [if_pos (by norm_num [RSI_PERIOD]), if_pos (by norm_num [RSI_PERIOD])]
    simp only [RSI_PERIOD]
    simp only [show (14 - 1 + 1 - 14 : ℕ) = 0 from rfl, Nat.zero_add]
    apply rsi_point_ne_nan
    · exact div_nonneg (Finset.sum_nonneg fun j _ => gainVal_nonneg _) (by norm_num)
    · exact div_nonneg (Finset.sum_nonneg fun j _ => lossVal_nonneg _) (by norm_num)
    · obtain ⟨i, hi1, hne⟩ := hnc
      have hi14 : i + 1 < 14 := by omega
      have hdval : (diff (data.map Bar.close)).getD (i + 1) PVal.nan =
          PVal.fin ((data.map Bar.close).getD (i + 1) 0 -
            (data.map Bar.close).getD i 0) := by
        rw [diff_getD _ _ _ (by rw [hcl]; omega), if_neg (Nat.succ_ne_zero i)]
        norm_num
      have hδne : (data.map Bar.close).getD (i + 1) 0 -
          (data.map Bar.close).getD i 0 ≠ 0 := sub_ne_zero.mpr (Ne.symm hne)
      rcases lt_or_gt_of_ne hδne with hneg | hpos
      · right
        apply div_pos ?_ (by norm_num)
        apply Finset.sum_pos' (fun j _ => lossVal_nonneg _)
        refine ⟨i + 1, Finset.mem_range.mpr hi14, ?_⟩
        rw [hdval]
        rw [show lossVal (PVal.fin ((data.map Bar.close).getD (i + 1) 0 -
            (data.map Bar.close).getD i 0)) =
          if (data.map Bar.close).getD (i + 1) 0 - (data.map Bar.close).getD i 0 < 0 then
            -((data.map Bar.close).getD (i + 1) 0 - (data.map Bar.close).getD i 0)
          else 0 from rfl, if_pos hneg]
        linarith
      · left
        apply div_pos ?_ (by norm_num)
        apply Finset.sum_pos' (fun j _ => gainVal_nonneg _)
        refine ⟨i + 1, Finset.mem_range.mpr hi14, ?_⟩
        rw [hdval]
        rw [show gainVal (PVal.fin ((data.map Bar.close).getD (i + 1) 0 -
            (data.map Bar.close).getD i 0)) =
          if 0 < (data.map Bar.close).getD (i + 1) 0 - (data.map Bar.close).getD i 0 then
            (data.map Bar.close).getD (i + 1) 0 - (data.map Bar.close).getD i 0
          else 0 from rfl, if_pos hpos]
        exact hpos
  · rw [screenCompute_sma_200, hsma 200 (by norm_num)]
  · rw [hs20]
    rfl
  · rw [hs50]
    rfl

/-- C6 counterexample: screening 14 equal bars produces a result whose
latest RSI is `NaN` (undefined), contradicting "the latest RSI value is
defined" as universally stated. -/
theorem c6_counterexample :
    (screen_stock "A" constData14).map ScreenResult.rsi = some PVal.nan := by
  have hval : (screenCompute "A" constData14).rsi = PVal.nan := by
    rw [screenCompute_rsi]
    have hmap : constData14.map Bar.close = List.replicate 14 (5 : ℚ) := by
      simp [constData14]
    rw [hmap, lastD, length_calculate_rsi, List.length_replicate]
    exact rsi_replicate_nan 5 14 RSI_PERIOD (14 - 1) (by norm_num)
  rw [screen_stock_some _ _ (by norm_num [constData14, RSI_PERIOD]), Option.map_some', hval]

/-- C6 witness: the amended statement evaluated on the strictly increasing
14-bar series. -/
theorem c6_witness :
    (screenCompute "A" exData14).rsi ≠ PVal.nan ∧
    (screenCompute "A" exData14).sma_50 = PVal.nan ∧
    (screenCompute "A" exData14).sma_200 = PVal.nan ∧
    priceAbove (screenCompute "A" exData14).price
      (screenCompute "A" exData14).sma_20 = false ∧
    priceAbove (screenCompute "A" exData14).price
      (screenCompute "A" exData14).sma_50 = false := by
  obtain ⟨r, hr, h1, h2, h3, h4, h5⟩ :=
    c6_exact_period "A" exData14 (by norm_num [exData14, RSI_PERIOD])
      ⟨0, by norm_num [exData14], by norm_num [exData14, List.getD]⟩
  have hre : r = screenCompute "A" exData14 := by
    rw [screen_stock_some _ _ (by norm_num [exData14, RSI_PERIOD])] at hr
    exact (Option.some.inj hr).symm
  subst hre
  exact ⟨h1, h2, h3, h4, h5⟩

/-! ## Claim C8: insufficient history -/

/-- C8: a series shorter than `RSI_PERIOD` makes `screen_stock` decline
with `none` (no crash, no numeric result); the orchestrator records the
ticker among the failures and its results are exactly the results of the
remaining tickers. -/
theorem c8_insufficient_history (t : String) (data : List Bar) (tickers : List String)
    (fetch : String → Option (List Bar)) (hlen : data.length < RSI_PERIOD)
    (hf : fetch t = some data) :
    screen_stock t data = none ∧
    gatherResults fetch (t :: tickers) =
      ((gatherResults fetch tickers).1, t :: (gatherResults fetch tickers).2) ∧
    run_screener (t :: tickers) fetch =
      ((run_screener tickers fetch).1, t :: (run_screener tickers fetch).2) := by
  have hnone := screen_stock_none t data hlen
  have hg : gatherResults fetch (t :: tickers) =
      ((gatherResults fetch tickers).1, t :: (gatherResults fetch tickers).2) := by
    simp only [gatherResults, hf, hnone]
  exact ⟨hnone, hg, by simp only [run_screener, hg]⟩

/-- C8 witness: the failure handling applied to ticker "A" with a 3-bar
series followed by ticker "B". -/
theorem c8_witness :
    screen_stock "A" shortData3 = none ∧
    gatherResults exFetch ["A", "B"] =
      ((gatherResults exFetch ["B"]).1, "A" :: (gatherResults exFetch ["B"]).2) ∧
    run_screener ["A", "B"] exFetch =
      ((run_screener ["B"] exFetch).1, "A" :: (run_screener ["B"] exFetch).2) :=
  c8_insufficient_history "A" shortData3 ["B"] exFetch
    (by norm_num [shortData3, RSI_PERIOD]) rfl

/-! ## Claim C9: the stable descending sort -/

theorem mem_insertDesc (x a : ScreenResult) :
    ∀ l : List ScreenResult, a ∈ insertDesc x l ↔ a = x ∨ a ∈ l := by
  intro l
  induction l with
  | nil => simp [insertDesc]
  | cons y ys ih =>
    rw [insertDesc]
    split_ifs
    · simp [List.mem_cons]
    · rw [List.mem_cons, ih, List.mem_cons]
      tauto

theorem insertDesc_pairwise (x : ScreenResult) (l : List ScreenResult)
    (h : List.Pairwise (fun a b => b.score ≤ a.score) l) :
    List.Pairwise (fun a b => b.score ≤ a.score) (insertDesc x l) := by
  induction l with
  | nil => simp [insertDesc]
  | cons y ys ih =>
    rw [insertDesc]
    rcases List.pairwise_cons.mp h with ⟨hy, hys⟩
    split_ifs with hc
    · refine List.pairwise_cons.mpr ⟨?_, h⟩
      intro b hb
      rcases List.mem_cons.mp hb with rfl | hb
      · exact hc
      · exact le_trans (hy b hb) hc
    · refine List.pairwise_cons.mpr ⟨?_, ih hys⟩
      intro b hb
      rcases (mem_insertDesc x b ys).mp hb with rfl | hb
      · omega
      · exact hy b hb

theorem sortDesc_pairwise :
    ∀ l : List ScreenResult, List.Pairwise (fun a b => b.score ≤ a.score) (sortDesc l)
  | [] => List.Pairwise.nil
  | x :: xs => insertDesc_pairwise x (sortDesc xs) (sortDesc_pairwise xs)

theorem filter_insertDesc (x : ScreenResult) (s : ℕ) :
    ∀ l : List ScreenResult,
      (insertDesc x l).filter (fun r => r.score == s) =
        if x.score == s then x :: l.filter (fun r => r.score == s)
        else l.filter (fun r => r.score == s) := by
  intro l
  induction l with
  | nil =>
    rw [show insertDesc x [] = [x] from rfl, List.filter_cons]
  | cons y ys ih =>
    rw [insertDesc]
    by_cases hc : y.score ≤ x.score
    · rw [if_pos hc, List.filter_cons]
    · rw [if_neg hc, List.filter_cons, ih, List.filter_cons]
      by_cases hpy : (y.score == s) = true
      · by_cases hpx : (x.score == s) = true
        · exfalso
          have h1 : y.score = s := by simpa using hpy
          have h2 : x.score = s := by simpa using hpx
          omega
        · simp [hpy, hpx]
      · simp [hpy]

theorem sortDesc_filter (s : ℕ) :
    ∀ l : List ScreenResult,
      (sortDesc l).filter (fun r => r.score == s) = l.filter (fun r => r.score == s) := by
  intro l
  induction l with
  | nil => rfl
  | cons x xs ih =>
    rw [show sortDesc (x :: xs) = insertDesc x (sortDesc xs) from rfl,
      filter_insertDesc, ih, List.filter_cons]

/-- C9: the orchestrator's final ordering is the stable descending sort of
the gathered results: it is sorted by score descending, it preserves the
relative order of equal-score results (the filtered subsequence at every
score is unchanged), and on input scores `[3,5,3,4,5]` for `A,B,C,D,E` the
output order is `B,E,D,A,C`. -/
theorem c9_stable_sort :
    (∀ (tickers : List String) (fetch : String → Option (List Bar)),
      run_screener tickers fetch =
        (sortDesc (gatherResults fetch tickers).1, (gatherResults fetch tickers).2)) ∧
    (∀ l : List ScreenResult, List.Pairwise (fun a b => b.score ≤ a.score) (sortDesc l)) ∧
    (∀ (l : List ScreenResult) (s : ℕ),
      (sortDesc l).filter (fun r => r.score == s) = l.filter (fun r => r.score == s)) ∧
    (sortDesc c9Example).map ScreenResult.ticker = ["B", "E", "D", "A", "C"] := by
  refine ⟨fun tickers fetch => rfl, sortDesc_pairwise, fun l s => sortDesc_filter s l, ?_⟩
  norm_num [c9Example, mkResult, sortDesc, insertDesc]

theorem Frac.q_intF (k : ℤ) : (intF k).q = (k : ℚ) := by
  simp [Frac.q, intF]

set_option maxRecDepth 100000 in
theorem c1_decide_dm : 0 < c1macdF.d := by decide

set_option maxRecDepth 100000 in
theorem c1_decide_ds : 0 < c1signalF.d := by decide

set_option maxRecDepth 100000 in
theorem c1_decide_lt : c1signalF.n * c1macdF.d < c1macdF.n * c1signalF.d := by decide

theorem c1_close : c1Data.map Bar.close =
    [100, 100, 100, 100, 100, 100, 100, 100, 100, 100, 100, 100,
     100, 100, 100, 100, 100, 100, 100, 100, 100, 100, 100, 100,
     100, 100, 100, 100, 100, 100, 100, 100, 100, 100, 100, 100,
     97, 101, 98, 102, 99, 103, 100, 104, 101, 105, 102, 106, 103, 107] := by
  norm_num [c1Data, c1PricesInt]

theorem c1_close_len : (c1Data.map Bar.close).length = 50 := by
  rw [c1_close]
  rfl

theorem c1_qmap : c1PricesF.map Frac.q = c1Data.map Bar.close := by
  rw [c1PricesF, c1Data, List.map_map, List.map_map]
  refine List.map_congr_left fun k _ => ?_
  simp [Function.comp, Frac.q, intF]

theorem c1_dens : ∀ x ∈ c1PricesF, 0 < x.d := by
  intro x hx
  rw [c1PricesF] at hx
  obtain ⟨k, -, rfl⟩ := List.mem_map.mp hx
  norm_num [intF]

theorem c1_macd_val :
    lastD (calculate_macd (c1Data.map Bar.close) MACD_FAST MACD_SLOW MACD_SIGNAL).macd 0 =
      Frac.q c1macdF := by
  obtain ⟨hq, hd⟩ := macd_lineF_spec c1PricesF MACD_FAST MACD_SLOW MACD_SIGNAL
    (by norm_num [MACD_FAST]) (by norm_num [MACD_SLOW]) c1_dens
  rw [c1_qmap] at hq
  have hlenm : (calculate_macd (c1Data.map Bar.close)
      MACD_FAST MACD_SLOW MACD_SIGNAL).macd.length = 50 := by
    rw [length_macd, c1_close_len]
  have hlenF : (macd_lineF c1PricesF MACD_FAST MACD_SLOW).length = 50 := by
    have h := congrArg List.length hq
    rw [List.length_map] at h
    rw [h, hlenm]
  rw [lastD, hlenm, ← hq,
    getD_map_of_lt Frac.q _ _ 0 ⟨0, 1⟩ (by rw [hlenF]; norm_num)]
  rfl

theorem c1_signal_val :
    lastD (calculate_macd (c1Data.map Bar.close) MACD_FAST MACD_SLOW MACD_SIGNAL).signal 0 =
      Frac.q c1signalF := by
  obtain ⟨hq, hd⟩ := signal_lineF_spec c1PricesF MACD_FAST MACD_SLOW MACD_SIGNAL
    (by norm_num [MACD_FAST]) (by norm_num [MACD_SLOW]) (by norm_num [MACD_SIGNAL]) c1_dens
  rw [c1_qmap] at hq
  have hlenm : (calculate_macd (c1Data.map Bar.close)
      MACD_FAST MACD_SLOW MACD_SIGNAL).signal.length = 50 := by
    rw [length_signal, c1_close_len]
  have hlenF : (signal_lineF c1PricesF MACD_FAST MACD_SLOW MACD_SIGNAL).length = 50 := by
    have h := congrArg List.length hq
    rw [List.length_map] at h
    rw [h, hlenm]
  rw [lastD, hlenm, ← hq,
    getD_map_of_lt Frac.q _ _ 0 ⟨0, 1⟩ (by rw [hlenF]; norm_num)]
  rfl

theorem c1_diffvals (j : ℕ) (h36 : 36 ≤ j) (hj : j < 50) :
    ((diff (c1Data.map Bar.close))[j]?).getD PVal.nan =
      PVal.fin (if j % 2 = 1 then 4 else -3) := by
  rw [← List.getD_eq_getElem?_getD, c1_close, diff_getD _ _ _ (by norm_num; omega)]
  interval_cases j <;> norm_num [List.getD]

theorem c1_rsi : (screenCompute "X" c1Data).rsi = PVal.fin (400 / 7) := by
  rw [screenCompute_rsi, lastD, length_calculate_rsi, c1_close_len]
  rw [calculate_rsi_getD _ _ _ _ (by rw [c1_close_len]; norm_num)]
  rw [gainSeries_getD _ _ _ (by rw [c1_close_len]; norm_num),
    lossSeries_getD _ _ _ (by rw [c1_close_len]; norm_num)]
  rw [if_pos (by norm_num [RSI_PERIOD]), if_pos (by norm_num [RSI_PERIOD])]
  simp only [RSI_PERIOD]
  simp only [show (50 - 1 + 1 - 14 : ℕ) = 36 from rfl]
  norm_num [Finset.sum_range_succ, c1_diffvals, gainVal, lossVal]
  rw [show PVal.div (PVal.fin 2) (PVal.fin (3 / 2)) = PVal.fin (4 / 3) by
    norm_num [PVal.div]]
  rw [show PVal.add (PVal.fin 1) (PVal.fin (4 / 3)) = PVal.fin (7 / 3) by
    norm_num [PVal.add]]
  rw [show PVal.div (PVal.fin 100) (PVal.fin (7 / 3)) = PVal.fin (300 / 7) by
    norm_num [PVal.div]]
  norm_num [PVal.sub, PVal.neg, PVal.add]

theorem c1_sma20 : (screenCompute "X" c1Data).sma_20 = PVal.fin (507 / 5) := by
  rw [screenCompute_sma_20, c1_close, lastD, length_rolling_mean]
  rw [rolling_mean_getD _ _ _ _ (by norm_num)]
  rw [if_pos (by norm_num)]
  norm_num [Finset.sum_range_succ, List.getD]

theorem c1_sma50 : (screenCompute "X" c1Data).sma_50 = PVal.fin (2514 / 25) := by
  rw [screenCompute_sma_50, c1_close, lastD, length_rolling_mean]
  rw [rolling_mean_getD _ _ _ _ (by norm_num)]
  rw [if_pos (by norm_num)]
  norm_num [Finset.sum_range_succ, List.getD]

theorem c1_price : (screenCompute "X" c1Data).price = 107 := by
  rw [screenCompute_price, c1_close, lastD]
  norm_num [List.getD]

/-- C1 counterexample: a concrete 50-bar series (36 flat bars, then a
rising sawtooth) on which every criterion fires, the RSI lands in the
40-60 band, and the screening score is 6 — outside the claimed [0, 5]. -/
theorem c1_counterexample :
    (screen_stock "X" c1Data).map ScreenResult.score = some 6 ∧ ¬ ((6 : ℕ) ≤ 5) := by
  constructor
  · have hclose_ne : c1Data.map Bar.close ≠ [] := by
      rw [c1_close]
      exact List.cons_ne_nil _ _
    have hcrit3 : (screenCompute "X" c1Data).signal_line <
        (screenCompute "X" c1Data).macd := by
      rw [screenCompute_signal_line, screenCompute_macd, c1_macd_val, c1_signal_val]
      rw [Frac.q_lt _ _ c1_decide_ds c1_decide_dm]
      exact c1_decide_lt
    have hcrit2 : 0 < (screenCompute "X" c1Data).histogram := by
      rw [screenCompute_histogram, histogram_lastD _ _ _ _ hclose_ne,
        c1_macd_val, c1_signal_val]
      have h := (Frac.q_lt _ _ c1_decide_ds c1_decide_dm).mpr c1_decide_lt
      linarith
    rw [screen_stock_some _ _ (by norm_num [c1Data, c1PricesInt, RSI_PERIOD]),
      Option.map_some']
    congr 1
    rw [screenCompute_score, if_pos hcrit2, if_pos hcrit3, c1_rsi, c1_price,
      c1_sma20, c1_sma50]
    norm_num [PVal.blt, priceAbove]
  · norm_num
